import Mathlib

/-!
Verification development for the Reena chat-bot repository
(src/services/geminiService.ts, src/App.tsx, src/types.ts).

The TypeScript source is shallowly embedded below.  Strings are Lean
`String`s; where stream framing requires character-level reasoning we work
on `String.data` (the underlying `List Char`).  The calculator's
`new Function('return ' + e)()` call is modelled on the fragment where
JavaScript evaluation is exactly integer arithmetic — integer literals,
unary sign, `+ - * /` with exact nonzero division and every value of
magnitude below 2^53 (where IEEE-754 doubles are exact) — and the model
explicitly abstains (payload `unmodelled`) on every input whose
evaluation leaves that fragment, so no theorem asserts a payload there.
All definitions are executable.
-/

/-- Helper: the underlying character list of a string concatenation. -/
theorem str_data_append (a b : String) : (a ++ b).data = a.data ++ b.data := by
  cases a; cases b; rfl

/-- Helper: rebuilding a string from its character list is the identity. -/
theorem str_mk_data (s : String) : String.mk s.data = s := by
  cases s; rfl

/-- Helper: a string is `""` exactly when its character list is empty. -/
theorem str_eq_empty_iff (s : String) : s = "" ↔ s.data = [] := by
  constructor
  · intro h; rw [h]
  · intro h
    cases s with
    | mk l =>
      have hl : l = [] := h
      cases hl; rfl

/- ## Tool Executor: `executeCalculator` (geminiService.ts lines 55-64)

The source sanitizes with
`expression.replace(/[^0-9+\-*\/().\sMathsincostanlogsqrt]/g, '')`
(a character class: every character NOT in the class is deleted), then
evaluates the remaining text as a JavaScript expression inside
`new Function("return " + sanitized)`, returning `JSON.stringify({result})`
on success and `JSON.stringify({error: "Invalid expression"})` when
evaluation throws.

The evaluation is modelled exactly on the fragment where JavaScript
arithmetic coincides with exact integer arithmetic: integer literals
without a leading zero, unary sign, `+ - * /`, parentheses, non-line-break
whitespace, every intermediate value an integer of magnitude below 2^53
(doubles are exact there) and every division by a nonzero exact divisor.
Inputs whose evaluation leaves this fragment — `**` (exponentiation),
`//` or `/*` (comments), a slash in regex position, any letter (`Math`
object or identifier references), a `.` (non-integer literals), a
leading-zero literal (legacy octal), a line terminator (restricted
`return` / automatic semicolon insertion), a value of magnitude at least
2^53, or a zero or inexact division — are answered by the explicit
abstention payload `unmodelled`, about which no theorem asserts
anything. -/

/-- JavaScript line terminators (LF, CR, LS, PS): these trigger the
restricted `return` production and automatic semicolon insertion, so the
model abstains on inputs containing them. -/
def jsLineTerminator (c : Char) : Bool :=
  c = '\n' || c = '\r' || c.toNat = 8232 || c.toNat = 8233

/-- JavaScript whitespace matched by the regex class `\s`, minus the line
terminators: TAB, VT, FF, SP, NBSP, Ogham space mark, the Unicode
en-quad…hair-space block, NNBSP, MMSP, ideographic space and BOM.  These
separate tokens in a `new Function` body without changing semantics. -/
def jsWhitespaceNoLT (c : Char) : Bool :=
  c = ' ' || c = '\t' || c.toNat = 11 || c.toNat = 12 || c.toNat = 160 ||
  c.toNat = 5760 || (8192 ≤ c.toNat && c.toNat ≤ 8202) || c.toNat = 8239 ||
  c.toNat = 8287 || c.toNat = 12288 || c.toNat = 65279

/-- Letters admitted by the sanitizer's class: the individual characters
of the literals `Math sin cos tan log sqrt`. -/
def calcLetter (c : Char) : Bool :=
  c = 'M' || c = 'a' || c = 't' || c = 'h' || c = 's' || c = 'i' || c = 'n' ||
  c = 'c' || c = 'o' || c = 'l' || c = 'g' || c = 'q' || c = 'r'

/-- Characters admitted by the sanitizer's regular-expression class:
digits, `+ - * / ( ) .`, the whole JavaScript `\s` whitespace set
(including line terminators), and the letters of
`Math sin cos tan log sqrt`. -/
def allowedChar (c : Char) : Bool :=
  c.isDigit || c = '+' || c = '-' || c = '*' || c = '/' || c = '(' || c = ')' ||
  c = '.' || jsWhitespaceNoLT c || jsLineTerminator c || calcLetter c

/-- Tokens of the modelled arithmetic fragment. -/
inductive Tok where
  | num (v : Int)
  | plus
  | minus
  | star
  | slash
  | lparen
  | rparen
deriving DecidableEq, Repr

/-- Digit value of a character. -/
def digitVal (c : Char) : Nat := c.toNat - 48

/-- Reads a maximal run of digits; returns the value, the digit count and
the remaining characters. -/
def readDigits : List Char → Nat × Nat × List Char
  | [] => (0, 0, [])
  | c :: rest =>
    if c.isDigit then
      let (v, k, r) := readDigits rest
      (digitVal c * 10 ^ k + v, k + 1, r)
    else (0, 0, c :: rest)

/-- Lexer outcome: a token list, a JavaScript syntax error (`bad`, caught
by the source and answered with the `Invalid expression` payload), or an
input whose evaluation leaves the modelled fragment (`offModel`). -/
inductive LexOut where
  | ok (toks : List Tok)
  | bad
  | offModel
deriving DecidableEq, Repr

/-- Prepends a token to a successful lexer outcome; errors and
abstentions propagate. -/
def LexOut.consTok (t : Tok) : LexOut → LexOut
  | LexOut.ok toks => LexOut.ok (t :: toks)
  | out => out

/-- Tokenizer for the modelled JavaScript arithmetic fragment.  The
boolean argument records whether the previous token was a value (number
or closing parenthesis): a slash in that position is division, anywhere
else it would start a regex literal, outside the fragment.  Adjacent
`++` or `--` are JavaScript increment and decrement operators — syntax
errors on numeric operands (`bad`); `**`, comments (`//`, `/*`), any
letter, any `.`, a leading-zero literal (legacy octal in sloppy mode), a
literal of magnitude at least 2^53, and line terminators leave the
fragment (`offModel`). -/
def lexToks : Nat → Bool → List Char → LexOut
  | 0, _, _ => LexOut.offModel
  | _ + 1, _, [] => LexOut.ok []
  | fuel + 1, pv, c :: rest =>
    if jsWhitespaceNoLT c then lexToks fuel pv rest
    else if jsLineTerminator c then LexOut.offModel
    else if c.isDigit then
      if c = '0' && (match rest with | d :: _ => d.isDigit | [] => false) then
        LexOut.offModel
      else
        match readDigits (c :: rest) with
        | (n, _, r1) =>
          if 9007199254740992 ≤ n then LexOut.offModel
          else (lexToks fuel true r1).consTok (Tok.num (Int.ofNat n))
    else if c = '.' then LexOut.offModel
    else if calcLetter c then LexOut.offModel
    else if c = '+' then
      match rest with
      | '+' :: _ => LexOut.bad
      | _ => (lexToks fuel false rest).consTok Tok.plus
    else if c = '-' then
      match rest with
      | '-' :: _ => LexOut.bad
      | _ => (lexToks fuel false rest).consTok Tok.minus
    else if c = '*' then
      match rest with
      | '*' :: _ => LexOut.offModel
      | _ => (lexToks fuel false rest).consTok Tok.star
    else if c = '/' then
      match rest with
      | '/' :: _ => LexOut.offModel
      | '*' :: _ => LexOut.offModel
      | _ => if pv then (lexToks fuel false rest).consTok Tok.slash else LexOut.offModel
    else if c = '(' then (lexToks fuel false rest).consTok Tok.lparen
    else if c = ')' then (lexToks fuel true rest).consTok Tok.rparen
    else LexOut.bad

/-- Parser modes: grammar nonterminals of the recursive-descent parser
(`expr := term (('+'|'-') term)*`, `term := factor (('*'|'/') factor)*`,
`factor := ('+'|'-') factor | number | '(' expr ')'`), matching the
JavaScript additive/multiplicative/unary/primary precedence on the
fragment's tokens.  The `Rest` modes carry the value accumulated so far,
giving left associativity. -/
inductive PMode where
  | expr
  | exprRest (v : Int)
  | term
  | termRest (v : Int)
  | factor

/-- Parser outcome: a value with the unconsumed tokens, a JavaScript
syntax or type error (`bad`), or an evaluation leaving the modelled
fragment (`offModel`). -/
inductive POut where
  | ok (v : Int) (rest : List Tok)
  | bad
  | offModel
deriving DecidableEq, Repr

/-- Bound inside which integer results of double arithmetic are exact. -/
def intOk (v : Int) : Bool := v.natAbs < 9007199254740992

/-- Fuel-indexed recursive-descent parser and evaluator over tokens.
Every addition, subtraction and multiplication is checked to stay below
2^53 in magnitude (doubles are exact there); division is modelled only
for a nonzero divisor dividing exactly — otherwise the evaluation leaves
the fragment.  Running out of fuel (never reached from
`executeCalculator`, whose fuel exceeds any possible recursion depth)
conservatively abstains. -/
def parseM : Nat → PMode → List Tok → POut
  | 0, _, _ => POut.offModel
  | fuel + 1, PMode.expr, ts =>
    match parseM fuel PMode.term ts with
    | POut.ok v r => parseM fuel (PMode.exprRest v) r
    | out => out
  | fuel + 1, PMode.exprRest v, Tok.plus :: ts =>
    match parseM fuel PMode.term ts with
    | POut.ok w r =>
      if intOk (v + w) then parseM fuel (PMode.exprRest (v + w)) r else POut.offModel
    | out => out
  | fuel + 1, PMode.exprRest v, Tok.minus :: ts =>
    match parseM fuel PMode.term ts with
    | POut.ok w r =>
      if intOk (v - w) then parseM fuel (PMode.exprRest (v - w)) r else POut.offModel
    | out => out
  | _ + 1, PMode.exprRest v, ts => POut.ok v ts
  | fuel + 1, PMode.term, ts =>
    match parseM fuel PMode.factor ts with
    | POut.ok v r => parseM fuel (PMode.termRest v) r
    | out => out
  | fuel + 1, PMode.termRest v, Tok.star :: ts =>
    match parseM fuel PMode.factor ts with
    | POut.ok w r =>
      if intOk (v * w) then parseM fuel (PMode.termRest (v * w)) r else POut.offModel
    | out => out
  | fuel + 1, PMode.termRest v, Tok.slash :: ts =>
    match parseM fuel PMode.factor ts with
    | POut.ok w r =>
      if w = 0 then POut.offModel
      else if Int.emod v w = 0 then parseM fuel (PMode.termRest (Int.ediv v w)) r
      else POut.offModel
    | out => out
  | _ + 1, PMode.termRest v, ts => POut.ok v ts
  | _ + 1, PMode.factor, Tok.num v :: ts => POut.ok v ts
  | fuel + 1, PMode.factor, Tok.plus :: ts => parseM fuel PMode.factor ts
  | fuel + 1, PMode.factor, Tok.minus :: ts =>
    match parseM fuel PMode.factor ts with
    | POut.ok w r => POut.ok (-w) r
    | out => out
  | fuel + 1, PMode.factor, Tok.lparen :: ts =>
    match parseM fuel PMode.expr ts with
    | POut.ok v (Tok.rparen :: rest) => POut.ok v rest
    | POut.ok _ _ => POut.bad
    | out => out
  | _ + 1, PMode.factor, _ => POut.bad

/-- Payload written by `executeCalculator`: `result v` embeds
`JSON.stringify({result})` for the integer value `v` (an exact double,
serialized as that integer), `invalid` embeds
`JSON.stringify({error: "Invalid expression"})`, `undef` embeds the
empty-object serialization of an `undefined` result (whitespace-only
sanitized expression), and `unmodelled` marks inputs whose JavaScript
evaluation leaves the modelled fragment — the embedding asserts nothing
about the source's payload there. -/
inductive CalcPayload where
  | result (v : Int)
  | undef
  | invalid
  | unmodelled
deriving DecidableEq, Repr

/-- Embedding of `executeCalculator` (geminiService.ts lines 55-64):
strip every character outside the allowed class, then evaluate the rest
as a JavaScript arithmetic expression within the modelled fragment; a
syntax or type error yields the `Invalid expression` payload, an
evaluation leaving the fragment yields the abstention payload. -/
def executeCalculator (s : String) : CalcPayload :=
  let t := s.data.filter allowedChar
  match lexToks (t.length + 1) false t with
  | LexOut.bad => CalcPayload.invalid
  | LexOut.offModel => CalcPayload.unmodelled
  | LexOut.ok [] => CalcPayload.undef
  | LexOut.ok (tok :: toks) =>
    match parseM (8 * ((tok :: toks).length + 1)) PMode.expr (tok :: toks) with
    | POut.ok v [] => CalcPayload.result v
    | POut.ok _ (_ :: _) => CalcPayload.invalid
    | POut.bad => CalcPayload.invalid
    | POut.offModel => CalcPayload.unmodelled

/-- Embedding of a collected `FunctionCall` from a stream chunk.  The
`args` payload is used only through `args.expression` (calculator); that
field is carried directly. -/
structure FnCall where
  id : String
  name : String
  expression : String
deriving DecidableEq, Repr

/-- Shapes the `result` string of a tool response can take:
the calculator's JSON payload, the time tool's JSON payload wrapping the
locale-formatted clock reading, or the untouched initial empty string. -/
inductive ToolResultField where
  | calc (p : CalcPayload)
  | time (t : String)
  | empty
deriving DecidableEq, Repr

/-- Embedding of one element of `functionResponses`
(`{id: call.id, name: call.name, response: {result}}`). -/
structure FnResp where
  id : String
  name : String
  response : ToolResultField
deriving DecidableEq, Repr

/-- Embedding of `executeGetTime` (geminiService.ts lines 66-68); the
current clock reading is an oracle parameter. -/
def executeGetTime (timeStr : String) : ToolResultField :=
  ToolResultField.time timeStr

/-- Embedding of the dispatch loop body (geminiService.ts lines 260-274):
`calculator` and `get_time` run their implementations, any other name
leaves `result` as the empty string. -/
def executeToolCall (timeStr : String) (call : FnCall) : FnResp :=
  { id := call.id
    name := call.name
    response :=
      if call.name = "calculator" then ToolResultField.calc (executeCalculator call.expression)
      else if call.name = "get_time" then executeGetTime timeStr
      else ToolResultField.empty }

/- ## Managed-SDK adapter: `sendGoogleMessage` (geminiService.ts lines 226-295)

The upstream stream is embedded as a list of chunks, each carrying the
chunk's appended text (`""` models an absent/falsy `chunk.text`) and the
function calls found in its content parts.  The adapter folds over the
chunks accumulating text and yielding the accumulated string after each
text-bearing chunk; after the first stream is exhausted, if any calls
were collected it yields one synthetic snapshot with the processing
suffix, executes the tools, and resumes accumulation over the follow-up
stream (whose chunks are only read for text). -/

/-- Embedding of a `GenerateContentResponse` stream chunk. -/
structure GChunk where
  text : String
  calls : List FnCall
deriving DecidableEq, Repr

/-- One step of the streaming loop (geminiService.ts lines 239-243 and
284-289): a truthy `chunk.text` extends the accumulator and yields the
accumulated text as a snapshot. -/
def gStep (st : String × List String) (c : GChunk) : String × List String :=
  if c.text = "" then st
  else (st.1 ++ c.text, st.2 ++ [st.1 ++ c.text])

/-- One pass over a chunk stream starting from accumulated text `start`:
returns the final accumulated text and the snapshots yielded during the
pass. -/
def gPass (start : String) (chunks : List GChunk) : String × List String :=
  chunks.foldl gStep (start, [])

/-- Function calls collected across the whole first stream
(geminiService.ts lines 245-252). -/
def collectCalls (chunks : List GChunk) : List FnCall :=
  (chunks.map GChunk.calls).flatten

/-- Status suffix appended for the synthetic snapshot
(geminiService.ts line 256). -/
def processingSuffix : String := "\n\n*Processing tool...*"

/-- Embedding of `sendGoogleMessage` for one turn: the snapshots yielded
to the consumer and the tool responses sent back upstream.  `s1` is the
initial response stream, `s2` the follow-up stream after tool results
(unused when no calls were collected), `timeStr` the clock oracle. -/
def sendGoogleMessage (s1 s2 : List GChunk) (timeStr : String) :
    List String × List FnResp :=
  let p1 := gPass "" s1
  let calls := collectCalls s1
  if calls.isEmpty then (p1.2, [])
  else
    let responses := calls.map (executeToolCall timeStr)
    let p2 := gPass p1.1 s2
    (p1.2 ++ [p1.1 ++ processingSuffix] ++ p2.2, responses)

/-- Snapshot stream of a managed-transport turn. -/
def googleSnapshots (s1 s2 : List GChunk) (timeStr : String) : List String :=
  (sendGoogleMessage s1 s2 timeStr).1

/- ## HTTP/SSE adapter: `sendOpenRouterMessage` (geminiService.ts lines 159-223)

Each network read is a string; the adapter splits it on newlines, keeps
lines starting with `data: `, stops the current read's line loop at the
`[DONE]` sentinel, parses the JSON payload, and for a truthy
`choices[0].delta.content` extends the accumulator and yields it. -/

/-- Embedding of `chunk.split('\n')` on the character list of a read. -/
def splitLinesL : List Char → List (List Char)
  | [] => [[]]
  | c :: rest =>
    if c = '\n' then [] :: splitLinesL rest
    else
      match splitLinesL rest with
      | [] => [[c]]
      | l :: ls => (c :: l) :: ls

/-- Strips an expected leading character sequence, returning the rest;
embeds the `line.startsWith('data: ')` test combined with
`line.slice(6)`. -/
def stripPrefixL : List Char → List Char → Option (List Char)
  | [], l => some l
  | _ :: _, [] => none
  | a :: p, b :: l => if a = b then stripPrefixL p l else none

/-- Strips an expected trailing character sequence, returning the front. -/
def stripSuffixL (s l : List Char) : Option (List Char) :=
  (stripPrefixL s.reverse l.reverse).map List.reverse

/-- Opening text of the canonical streaming frame
`\x7b"choices":[\x7b"delta":\x7b"content":"…"\x7d\x7d]\x7d` up to the
content string. -/
def jsonPre : String := "\x7b\"choices\":[\x7b\"delta\":\x7b\"content\":\""

/-- Closing text of the canonical streaming frame after the content
string. -/
def jsonSuf : String := "\"\x7d\x7d]\x7d"

/-- Modelled: `JSON.parse(data)` followed by `json.choices[0]?.delta?.content`
(geminiService.ts lines 203-204), restricted to the canonical frame shape
above; any other payload behaves as a parse failure, which the adapter
silently skips. -/
def parseDelta (payload : List Char) : Option (List Char) :=
  (stripPrefixL jsonPre.data payload).bind (stripSuffixL jsonSuf.data)

/-- Embedding of the per-read line loop (geminiService.ts lines 197-213):
accumulator and snapshots are threaded through; the `[DONE]` sentinel
breaks out of the current read's lines. -/
def processLines : String × List String → List (List Char) → String × List String
  | st, [] => st
  | st, line :: rest =>
    match stripPrefixL "data: ".data line with
    | none => processLines st rest
    | some data =>
      if data = "[DONE]".data then st
      else
        match parseDelta data with
        | none => processLines st rest
        | some content =>
          if content = [] then processLines st rest
          else
            let acc' := st.1 ++ String.mk content
            processLines (acc', st.2 ++ [acc']) rest

/-- Embedding of the read loop (geminiService.ts lines 190-214): folds the
per-read processing over all reads delivered before `done`. -/
def orStreamFold (reads : List String) : String × List String :=
  reads.foldl (fun st chunk => processLines st (splitLinesL chunk.data)) ("", [])

/-- Flat role/content history entry kept by the HTTP transport. -/
structure ORMsg where
  role : String
  content : String
deriving DecidableEq, Repr

/-- Upstream behaviors of the `fetch` call: network failure, a non-ok
status (carrying the error body text), a response without a body, or an
ok streaming response delivering the given reads. -/
inductive ORResponse where
  | netError
  | httpError (body : String)
  | noBody
  | ok (reads : List String)
deriving DecidableEq, Repr

/-- Observable outcome of one `sendOpenRouterMessage` turn: the flat
history afterwards, the snapshots yielded, and the error propagated to
the caller (if any). -/
structure ORResult where
  history : List ORMsg
  snapshots : List String
  error : Option String
deriving DecidableEq, Repr

/-- Embedding of `sendOpenRouterMessage` (geminiService.ts lines 159-223):
the user message is pushed onto the flat history before the request is
issued; every failure path rethrows after that push, with no rollback;
on success the accumulated assistant text is appended to the history. -/
def sendOpenRouterMessage (hist : List ORMsg) (message : String)
    (resp : ORResponse) : ORResult :=
  let hist1 := hist ++ [⟨"user", message⟩]
  match resp with
  | ORResponse.netError => ⟨hist1, [], some "fetch failed"⟩
  | ORResponse.httpError body => ⟨hist1, [], some ("OpenRouter Error: " ++ body)⟩
  | ORResponse.noBody => ⟨hist1, [], some "No response body"⟩
  | ORResponse.ok reads =>
    let st := orStreamFold reads
    ⟨hist1 ++ [⟨"assistant", st.1⟩], st.2, none⟩


/- ## Conversation Engine: `startChat` and `sendMessage`
(geminiService.ts lines 71-156) -/

/-- Message roles (types.ts). -/
inductive Role where
  | user
  | model
  | system
deriving DecidableEq, Repr

/-- Role rendered to the transport vocabulary: the managed transport uses
the role string as is. -/
def Role.str : Role → String
  | Role.user => "user"
  | Role.model => "model"
  | Role.system => "system"

/-- Embedding of `Message` (types.ts); the optional `isError` flag
defaults to false. -/
structure Message where
  id : String
  role : Role
  content : String
  isError : Bool
  timestamp : Nat
deriving DecidableEq, Repr

/-- Embedding of one `Content` entry of the managed transport's replayed
history (`{role, parts: [{text}]}`). -/
structure GContent where
  role : String
  parts : List String
deriving DecidableEq, Repr

/-- Filter-and-map stage of `startChat` on the managed transport
(geminiService.ts lines 131-136): system-role and error-flagged messages
are removed and the rest are projected to `{role, parts: [{text}]}`. -/
def googleFiltered (messages : List Message) : List GContent :=
  (messages.filter fun m => decide (m.role ≠ Role.system) && !m.isError).map
    fun m => ⟨m.role.str, [m.content]⟩

/-- Embedding of `startChat`'s managed-transport history construction
(geminiService.ts lines 127-143): after filtering, a single leading
model-authored entry is shifted off. -/
def startChatGoogleHistory (messages : List Message) : List GContent :=
  match googleFiltered messages with
  | [] => []
  | c :: rest => if c.role = "model" then rest else c :: rest

/-- Per-service state fixed at construction (geminiService.ts lines
71-90): the credential, the transport flag derived from its prefix, and
the flat HTTP-transport history (initially empty). -/
structure ServiceState where
  apiKey : String
  isOpenRouter : Bool
  openRouterHistory : List ORMsg
deriving DecidableEq, Repr

/-- Embedding of the constructor (geminiService.ts lines 78-90): the
transport is chosen by the literal prefix `sk-or-v1` of the credential. -/
def mkService (apiKey : String) : ServiceState :=
  ⟨apiKey, "sk-or-v1".data.isPrefixOf apiKey.data, []⟩

/-- Error text thrown when no credential is configured
(geminiService.ts line 148). -/
def missingKeyError : String :=
  "API Key is missing. Please check your .env file or Vercel settings."

/-- Observable outcome of one `sendMessage` call: a configuration error
thrown before any transport is opened, or delegation to one of the two
adapters. -/
inductive SendResult where
  | configError (msg : String)
  | openRouter (r : ORResult)
  | google (snaps : List String) (responses : List FnResp)
deriving DecidableEq, Repr

/-- Embedding of `sendMessage` (geminiService.ts lines 146-156): an empty
credential fails immediately; otherwise the adapter chosen at
construction runs with its respective upstream oracle. -/
def sendMessage (st : ServiceState) (message : String) (orResp : ORResponse)
    (s1 s2 : List GChunk) (timeStr : String) : SendResult :=
  if st.apiKey = "" then SendResult.configError missingKeyError
  else if st.isOpenRouter then
    SendResult.openRouter (sendOpenRouterMessage st.openRouterHistory message orResp)
  else
    SendResult.google (googleSnapshots s1 s2 timeStr) (sendGoogleMessage s1 s2 timeStr).2

/- ## Session Store (App.tsx) -/

/-- Embedding of `ChatSession` (types.ts). -/
structure ChatSession where
  id : String
  title : String
  messages : List Message
  updatedAt : Nat
deriving DecidableEq, Repr

/-- Seeded welcome text of a fresh session (App.tsx lines 31-36). -/
def welcomeText : String :=
  "Namaste! Hello! I am Reena. I can help you with calculations, questions, and more in Nepali or English. How can I help you today?"

/-- Embedding of `createNewSession` (App.tsx lines 27-39); `now` is the
`Date.now()` oracle. -/
def createNewSession (now : Nat) : ChatSession :=
  { id := Nat.repr now
    title := "New Chat"
    messages := [⟨"welcome", Role.model, welcomeText, false, now⟩]
    updatedAt := now }

/-- UI-facing app state touched by the session handlers. -/
structure AppState where
  sessions : List ChatSession
  currentSessionId : String
  messages : List Message
deriving DecidableEq, Repr

/-- Embedding of `handleDeleteSession` (App.tsx lines 222-243): filter the
session out; if the collection became empty, replace it by a fresh
session which becomes active; otherwise, if the active session was
deleted, activation falls to the first remaining session. -/
def handleDeleteSession (st : AppState) (sessionId : String) (now : Nat) : AppState :=
  let newSessions := st.sessions.filter fun s => decide (s.id ≠ sessionId)
  match newSessions with
  | [] =>
    let ns := createNewSession now
    ⟨[ns], ns.id, ns.messages⟩
  | next :: rest =>
    if sessionId = st.currentSessionId then ⟨next :: rest, next.id, next.messages⟩
    else ⟨next :: rest, st.currentSessionId, st.messages⟩

/-- Stable insertion of a session into a list ordered by `updatedAt`
descending: the inserted session goes before the first entry whose
`updatedAt` does not exceed it. -/
def insertDesc (s : ChatSession) : List ChatSession → List ChatSession
  | [] => [s]
  | t :: ts => if t.updatedAt ≤ s.updatedAt then s :: t :: ts else t :: insertDesc s ts

/-- Embedding of `.sort((a, b) => b.updatedAt - a.updatedAt)` (App.tsx
line 52): JavaScript's `Array.prototype.sort` is stable, so the
comparator yields a stable sort by `updatedAt` descending. -/
def sortDesc : List ChatSession → List ChatSession
  | [] => []
  | s :: ts => insertDesc s (sortDesc ts)

/-- Embedding of `newTitle || session.title` (App.tsx line 48): a missing
or empty (falsy) new title keeps the existing one. -/
def appliedTitle (newTitle : Option String) (old : String) : String :=
  match newTitle with
  | some t => if t = "" then old else t
  | none => old

/-- Embedding of `updateCurrentSession` (App.tsx lines 41-53): the active
session's messages, `updatedAt` and (optionally) title are replaced, then
the whole collection is re-sorted by `updatedAt` descending. -/
def updateCurrentSession (sessions : List ChatSession) (currentSessionId : String)
    (updatedMessages : List Message) (newTitle : Option String) (now : Nat) :
    List ChatSession :=
  sortDesc (sessions.map fun session =>
    if session.id = currentSessionId then
      { session with messages := updatedMessages, updatedAt := now,
                     title := appliedTitle newTitle session.title }
    else session)

/-- Embedding of `handleNewChat`'s collection change (App.tsx line 204):
the fresh session is prepended. -/
def handleNewChat (sessions : List ChatSession) (now : Nat) : List ChatSession :=
  createNewSession now :: sessions

/-- Embedding of the title derivation of `handleSendMessage` (App.tsx
line 136): the first 30 characters of the user text, ellipsized when
truncation happened. -/
def deriveTitle (userText : String) : String :=
  String.mk (userText.data.take 30) ++ (if 30 < userText.data.length then "..." else "")

/-- Embedding of the title-update guard (App.tsx lines 133-137): a new
title is derived only while the session still has the placeholder
title. -/
def titleForSend (session : ChatSession) (userText : String) : Option String :=
  if session.title = "New Chat" then some (deriveTitle userText) else none

/- ## Snapshot prefix-monotonicity machinery (claim C1) -/

/-- Relation between two snapshots: the first one's text is a (non-strict)
prefix of the second one's. -/
def sPfx (a b : String) : Prop := a.data <+: b.data

instance : DecidableRel sPfx := fun a b => inferInstanceAs (Decidable (a.data <+: b.data))

/-- Helper: every string is a prefix of itself. -/
theorem sPfx_refl (a : String) : sPfx a a := List.prefix_refl a.data

/-- Helper: prefix-extension is transitive. -/
theorem sPfx_trans {a b c : String} (h1 : sPfx a b) (h2 : sPfx b c) : sPfx a c :=
  List.IsPrefix.trans h1 h2

/-- Helper: appending only extends a string. -/
theorem sPfx_append (a t : String) : sPfx a (a ++ t) := by
  unfold sPfx
  rw [str_data_append]
  exact List.prefix_append a.data t.data

/-- Invariant of the streaming loops: the snapshots yielded so far form a
prefix chain, each is a prefix of the current accumulated text, and the
base text the pass started from is a prefix of everything. -/
def GInv (base : String) (st : String × List String) : Prop :=
  List.Chain' sPfx st.2 ∧ (∀ s ∈ st.2, sPfx s st.1) ∧ sPfx base st.1 ∧
    ∀ s ∈ st.2, sPfx base s

/-- Helper: the invariant holds before any snapshot is emitted. -/
theorem ginv_init (base : String) : GInv base (base, []) := by
  refine ⟨List.chain'_nil, ?_, sPfx_refl base, ?_⟩ <;>
    exact fun s hs => absurd hs (List.not_mem_nil s)

/-- Helper: emitting the extended accumulator as a snapshot preserves the
invariant. -/
theorem ginv_push (base : String) (st : String × List String) (t : String)
    (h : GInv base st) : GInv base (st.1 ++ t, st.2 ++ [st.1 ++ t]) := by
  obtain ⟨hc, hacc, hbase, hall⟩ := h
  refine ⟨?_, ?_, sPfx_trans hbase (sPfx_append st.1 t), ?_⟩
  · rw [List.chain'_append]
    refine ⟨hc, List.chain'_singleton _, ?_⟩
    intro x hx y hy
    obtain ⟨hne, rfl⟩ := List.mem_getLast?_eq_getLast hx
    have hy' : st.1 ++ t = y := by simpa using hy
    subst hy'
    exact sPfx_trans (hacc _ (List.getLast_mem hne)) (sPfx_append st.1 t)
  · intro s hs
    rcases List.mem_append.mp hs with h1 | h2
    · exact sPfx_trans (hacc s h1) (sPfx_append st.1 t)
    · have h2' : s = st.1 ++ t := by simpa using h2
      subst h2'
      exact sPfx_refl _
  all_goals
    intro s hs
    rcases List.mem_append.mp hs with h1 | h2
    · exact sPfx_trans (hall s h1) (sPfx_refl _)
    · have h2' : s = st.1 ++ t := by simpa using h2
      subst h2'
      exact sPfx_trans hbase (sPfx_append st.1 t)

/-- Helper: one managed-transport stream step preserves the invariant. -/
theorem ginv_gStep (base : String) (st : String × List String) (c : GChunk)
    (h : GInv base st) : GInv base (gStep st c) := by
  unfold gStep
  split
  · exact h
  · exact ginv_push base st c.text h

/-- Helper: a fold of stream steps preserves the invariant. -/
theorem ginv_gFold (base : String) (chunks : List GChunk) :
    ∀ st, GInv base st → GInv base (chunks.foldl gStep st) := by
  induction chunks with
  | nil => intro st h; exact h
  | cons c cs ih => intro st h; exact ih _ (ginv_gStep base st c h)

/-- Helper: the per-read SSE line loop preserves the invariant. -/
theorem ginv_processLines (base : String) (lines : List (List Char)) :
    ∀ st, GInv base st → GInv base (processLines st lines) := by
  induction lines with
  | nil => intro st h; exact h
  | cons line rest ih =>
    intro st h
    unfold processLines
    cases stripPrefixL "data: ".data line with
    | none => exact ih st h
    | some data =>
      simp only
      split
      · exact h
      · cases parseDelta data with
        | none => exact ih st h
        | some content =>
          simp only
          split
          · exact ih st h
          · exact ih _ (ginv_push base st (String.mk content) h)

/-- Helper: the whole SSE read loop preserves the invariant. -/
theorem ginv_orFold (reads : List String) :
    ∀ st, GInv "" st → GInv "" (reads.foldl
      (fun st chunk => processLines st (splitLinesL chunk.data)) st) := by
  induction reads with
  | nil => intro st h; exact h
  | cons r rs ih =>
    intro st h
    exact ih _ (ginv_processLines "" (splitLinesL r.data) st h)

/-- Claim C1 (corrected): for the HTTP/SSE adapter, every pair of
consecutive snapshots of a turn is prefix-ordered; for the managed
adapter the same holds whenever no tool calls were collected; when tool
calls were collected, the snapshot sequence is the first pass, then the
single synthetic processing snapshot (which extends every first-pass
snapshot), then the resumed pass — and the prefix chain holds for the
sequence with the synthetic processing snapshot removed.  The processing
snapshot's status suffix is not carried into the resumed snapshots, which
restart from the accumulated text, so the chain does not in general hold
across the tool-call round trip (see the counterexample). -/
theorem c1_amended :
    (∀ hist msg reads,
      List.Chain' sPfx (sendOpenRouterMessage hist msg (ORResponse.ok reads)).snapshots)
    ∧ (∀ s1 s2 t, collectCalls s1 = [] →
      List.Chain' sPfx (googleSnapshots s1 s2 t))
    ∧ (∀ s1 s2 t, collectCalls s1 ≠ [] →
      googleSnapshots s1 s2 t
        = (gPass "" s1).2 ++ [(gPass "" s1).1 ++ processingSuffix]
            ++ (gPass (gPass "" s1).1 s2).2
      ∧ List.Chain' sPfx ((gPass "" s1).2 ++ (gPass (gPass "" s1).1 s2).2)
      ∧ ∀ x ∈ (gPass "" s1).2, sPfx x ((gPass "" s1).1 ++ processingSuffix)) := by
  refine ⟨?_, ?_, ?_⟩
  · intro hist msg reads
    have h := ginv_orFold reads ("", []) (ginv_init "")
    exact h.1
  · intro s1 s2 t h
    have hempty : (collectCalls s1).isEmpty = true := by rw [h]; rfl
    have h1 := ginv_gFold "" s1 ("", []) (ginv_init "")
    simp only [googleSnapshots, sendGoogleMessage, hempty, if_true]
    exact h1.1
  · intro s1 s2 t h
    have hfalse : (collectCalls s1).isEmpty = false := by
      cases hc : collectCalls s1 with
      | nil => exact absurd hc h
      | cons a l => rfl
    have h1 := ginv_gFold "" s1 ("", []) (ginv_init "")
    have h2 := ginv_gFold (gPass "" s1).1 s2 ((gPass "" s1).1, []) (ginv_init _)
    refine ⟨?_, ?_, ?_⟩
    · simp only [googleSnapshots, sendGoogleMessage, hfalse, Bool.false_eq_true, if_false,
        gPass]
    · rw [List.chain'_append]
      refine ⟨h1.1, h2.1, ?_⟩
      intro x hx y hy
      obtain ⟨hne, rfl⟩ := List.mem_getLast?_eq_getLast hx
      have hx' := h1.2.1 _ (List.getLast_mem hne)
      have hy' := h2.2.2.2 y (List.mem_of_mem_head? hy)
      exact sPfx_trans hx' hy'
    · intro x hx
      exact sPfx_trans (h1.2.1 x hx) (sPfx_append _ _)

/-- Claim C1, counterexample to the frozen statement: with one first-pass
chunk carrying text `A` and a tool call, and one resumed chunk carrying
text `B`, the managed adapter emits `A`, then the synthetic processing
snapshot, then `AB`; the processing snapshot is not a prefix of `AB`, so
the snapshot sequence is not a prefix chain. -/
theorem c1_counterexample :
    ¬ List.Chain' sPfx
      (googleSnapshots [⟨"A", [⟨"1", "get_time", ""⟩]⟩] [⟨"B", []⟩] "now") := by
  have he : googleSnapshots [⟨"A", [⟨"1", "get_time", ""⟩]⟩] [⟨"B", []⟩] "now"
      = ["A", "A" ++ processingSuffix, "AB"] := by rfl
  rw [he, List.chain'_cons, List.chain'_cons]
  intro h
  exact absurd h.2.1 (by decide)

/-- Claim C1, witness: the amended theorem applied to the concrete
round-trip input of the counterexample. -/
theorem c1_amended_witness :
    collectCalls [(⟨"A", [⟨"1", "get_time", ""⟩]⟩ : GChunk)] ≠ [] ∧
    List.Chain' sPfx
      ((gPass "" [⟨"A", [⟨"1", "get_time", ""⟩]⟩]).2
        ++ (gPass (gPass "" [⟨"A", [⟨"1", "get_time", ""⟩]⟩]).1 [⟨"B", []⟩]).2) :=
  ⟨by decide, (c1_amended.2.2 [⟨"A", [⟨"1", "get_time", ""⟩]⟩] [⟨"B", []⟩] "now"
    (by decide)).2.1⟩

/- ## SSE framing lemmas (claim C4) -/

/-- Helper: the empty string is a left identity of append. -/
theorem str_empty_append (s : String) : "" ++ s = s := by
  cases s; rfl

/-- Helper: splitting a newline-free character list yields that single
line. -/
theorem splitLinesL_no_newline (l : List Char) (h : ¬ '\n' ∈ l) : splitLinesL l = [l] := by
  induction l with
  | nil => rfl
  | cons c rest ih =>
    have hc : ¬ c = '\n' := fun hc => h (hc ▸ List.mem_cons_self c rest)
    have hr : ¬ '\n' ∈ rest := fun hr => h (List.mem_cons_of_mem c hr)
    simp only [splitLinesL]
    rw [if_neg hc, ih hr]

/-- Helper: stripping an expected leading sequence from exactly that
sequence followed by a rest yields the rest. -/
theorem stripPrefixL_append (p r : List Char) : stripPrefixL p (p ++ r) = some r := by
  induction p with
  | nil => rfl
  | cons a p ih => simp [stripPrefixL, ih]

/-- Helper: stripping an expected trailing sequence from a front followed
by exactly that sequence yields the front. -/
theorem stripSuffixL_append (s m : List Char) : stripSuffixL s (m ++ s) = some m := by
  unfold stripSuffixL
  rw [List.reverse_append, stripPrefixL_append]
  simp

/-- Helper: extracting the delta of a canonical frame payload returns the
content verbatim. -/
theorem parseDelta_frame (d : List Char) :
    parseDelta (jsonPre.data ++ (d ++ jsonSuf.data)) = some d := by
  unfold parseDelta
  rw [stripPrefixL_append]
  simpa using stripSuffixL_append jsonSuf.data d

/-- Helper: a canonical frame payload is never the `[DONE]` sentinel. -/
theorem pre_ne_done (x : List Char) : jsonPre.data ++ x ≠ "[DONE]".data := by
  intro h
  have h2 := congrArg List.head? h
  rw [show (jsonPre.data ++ x).head? = some '\x7b' from rfl] at h2
  exact absurd h2 (by decide)

/-- Single `data:` frame of the canonical streaming shape carrying the
content `d`. -/
def orFrame (d : String) : String := "data: " ++ (jsonPre ++ (d ++ jsonSuf))

/-- Helper: character-level decomposition of a frame. -/
theorem orFrame_data (d : String) :
    (orFrame d).data = "data: ".data ++ (jsonPre.data ++ (d.data ++ jsonSuf.data)) := by
  simp [orFrame, str_data_append]

/-- Helper: a frame with newline-free content contains no newline. -/
theorem orFrame_no_newline (d : String) (h : ¬ '\n' ∈ d.data) :
    ¬ '\n' ∈ (orFrame d).data := by
  rw [orFrame_data]
  intro hm
  rcases List.mem_append.mp hm with h1 | h2
  · exact absurd h1 (by decide)
  rcases List.mem_append.mp h2 with h3 | h4
  · exact absurd h3 (by decide)
  rcases List.mem_append.mp h4 with h5 | h6
  · exact h h5
  · exact absurd h6 (by decide)

/-- Helper: processing the single line of a canonical frame with
non-empty content appends the content to the accumulator and yields one
snapshot. -/
theorem processLines_frame (st : String × List String) (d : List Char) (hd : d ≠ []) :
    processLines st ["data: ".data ++ (jsonPre.data ++ (d ++ jsonSuf.data))]
      = (st.1 ++ String.mk d, st.2 ++ [st.1 ++ String.mk d]) := by
  simp only [processLines]
  rw [stripPrefixL_append]
  simp only
  rw [if_neg (pre_ne_done _), parseDelta_frame]
  simp only
  rw [if_neg hd]

/-- Helper: a read holding only the sentinel line leaves the state
unchanged. -/
theorem processLines_done (st : String × List String) :
    processLines st (splitLinesL ("data: [DONE]" : String).data) = st := rfl

/-- Claim C4 (confirmed): an HTTP/SSE turn whose response stream is
exactly two `data:` frames with non-empty (and newline-free, as SSE
framing requires) deltas followed by the `[DONE]` sentinel emits exactly
the two growing snapshots `d1` and `d1 ++ d2`, completes without error,
and appends the user message and the concatenated assistant text to the
flat history. -/
theorem c4_two_frames (hist : List ORMsg) (msg d1 d2 : String)
    (h1 : d1 ≠ "") (h2 : d2 ≠ "") (hn1 : ¬ '\n' ∈ d1.data) (hn2 : ¬ '\n' ∈ d2.data) :
    sendOpenRouterMessage hist msg
        (ORResponse.ok [orFrame d1, orFrame d2, "data: [DONE]"])
      = ⟨hist ++ [⟨"user", msg⟩, ⟨"assistant", d1 ++ d2⟩], [d1, d1 ++ d2], none⟩ := by
  have hd1 : d1.data ≠ [] := fun hh => h1 ((str_eq_empty_iff d1).mpr hh)
  have hd2 : d2.data ≠ [] := fun hh => h2 ((str_eq_empty_iff d2).mpr hh)
  have e0 : orStreamFold [orFrame d1, orFrame d2, "data: [DONE]"]
      = (d1 ++ d2, [d1, d1 ++ d2]) := by
    unfold orStreamFold
    simp only [List.foldl_cons, List.foldl_nil]
    rw [splitLinesL_no_newline _ (orFrame_no_newline d1 hn1), orFrame_data d1,
      processLines_frame _ _ hd1]
    simp only [str_mk_data, List.nil_append]
    rw [str_empty_append]
    rw [splitLinesL_no_newline _ (orFrame_no_newline d2 hn2), orFrame_data d2,
      processLines_frame _ _ hd2]
    simp only [str_mk_data, List.singleton_append]
    rw [processLines_done]
  simp only [sendOpenRouterMessage]
  rw [e0]
  simp [List.append_assoc]

/-- Claim C4, witness: the theorem at the concrete deltas `He` and `llo`
over the empty history. -/
theorem c4_two_frames_witness :
    (("He" : String) ≠ "" ∧ ("llo" : String) ≠ "" ∧
      ¬ '\n' ∈ ("He" : String).data ∧ ¬ '\n' ∈ ("llo" : String).data) ∧
    sendOpenRouterMessage [] "hi"
        (ORResponse.ok [orFrame "He", orFrame "llo", "data: [DONE]"])
      = ⟨[⟨"user", "hi"⟩, ⟨"assistant", "Hello"⟩], ["He", "Hello"], none⟩ := by
  constructor
  · exact ⟨by decide, by decide, by decide, by decide⟩
  · exact (c4_two_frames [] "hi" "He" "llo" (by decide) (by decide) (by decide)
      (by decide)).trans (by decide)

/- ## Claim C2: the calculator contract -/

/-- Condition under which the single `shift()` of `startChat` suffices:
the filtered history does not begin with two model-authored entries. -/
def noTwoLeadingModels : List GContent → Bool
  | a :: b :: _ => !(a.role == "model" && b.role == "model")
  | _ => true

/-- Claim C3 (corrected): the replayed managed-transport history never
contains a system-role entry, and — provided the filtered history does
not begin with two consecutive model-authored entries (the code shifts
only one) — its first entry never has the model role. -/
theorem startChatGoogleHistory_nil (messages : List Message)
    (hfl : googleFiltered messages = []) : startChatGoogleHistory messages = [] := by
  unfold startChatGoogleHistory
  rw [hfl]

/-- Helper: equation of `startChatGoogleHistory` on a non-empty filtered
history. -/
theorem startChatGoogleHistory_cons (a : GContent) (rest : List GContent)
    (messages : List Message) (hfl : googleFiltered messages = a :: rest) :
    startChatGoogleHistory messages = if a.role = "model" then rest else a :: rest := by
  unfold startChatGoogleHistory
  rw [hfl]

theorem c3_amended (messages : List Message) :
    (∀ c ∈ startChatGoogleHistory messages, c.role ≠ "system")
    ∧ (noTwoLeadingModels (googleFiltered messages) = true →
        ∀ c, (startChatGoogleHistory messages).head? = some c → c.role ≠ "model") := by
  constructor
  · intro c hc
    have hmem : c ∈ googleFiltered messages := by
      cases hfl : googleFiltered messages with
      | nil => rw [startChatGoogleHistory_nil messages hfl] at hc; cases hc
      | cons a rest =>
        rw [startChatGoogleHistory_cons a rest messages hfl] at hc
        by_cases ha : a.role = "model"
        · rw [if_pos ha] at hc; exact List.mem_cons_of_mem a hc
        · rw [if_neg ha] at hc; exact hc
    unfold googleFiltered at hmem
    obtain ⟨m, hm, rfl⟩ := List.mem_map.mp hmem
    obtain ⟨_, hmp⟩ := List.mem_filter.mp hm
    have hrole : m.role ≠ Role.system := by
      simp only [Bool.and_eq_true, decide_eq_true_eq] at hmp
      exact hmp.1
    cases hr : m.role with
    | user => simp [Role.str]
    | model => simp [Role.str]
    | system => exact absurd hr hrole
  · intro hn c hc
    cases hfl : googleFiltered messages with
    | nil => rw [startChatGoogleHistory_nil messages hfl] at hc; cases hc
    | cons a rest =>
      rw [startChatGoogleHistory_cons a rest messages hfl] at hc
      by_cases ha : a.role = "model"
      · rw [if_pos ha] at hc
        cases rest with
        | nil => cases hc
        | cons b t =>
          rw [hfl] at hn
          unfold noTwoLeadingModels at hn
          simp only [ha, Bool.and_eq_true, Bool.not_eq_true', Bool.and_eq_false_iff,
            beq_iff_eq, beq_eq_false_iff_ne] at hn
          have hb : b.role ≠ "model" := by
            rcases hn with h | h
            · exact absurd rfl h
            · exact h
          have hcb : b = c := by simpa using hc
          exact hcb ▸ hb
      · rw [if_neg ha] at hc
        have hca : a = c := by simpa using hc
        exact hca ▸ ha

/-- Claim C3, counterexample to the frozen statement: a message list that
begins with two model-authored entries (the `shift()` removes only one),
so the replayed history still starts with a model-role entry. -/
theorem c3_counterexample :
    ((startChatGoogleHistory
        [⟨"w", Role.model, "a", false, 0⟩, ⟨"x", Role.model, "b", false, 1⟩]).head?.map
      GContent.role) = some "model" := by rfl

/-- Claim C3, witness: the amended theorem on a seeded session history
(welcome model message followed by a user message), whose replayed
history starts with the user entry. -/
theorem c3_amended_witness :
    noTwoLeadingModels (googleFiltered
      [⟨"welcome", Role.model, "hi", false, 0⟩, ⟨"1", Role.user, "q", false, 1⟩]) = true ∧
    (⟨"user", ["q"]⟩ : GContent).role ≠ "model" :=
  ⟨by decide,
    (c3_amended [⟨"welcome", Role.model, "hi", false, 0⟩, ⟨"1", Role.user, "q", false, 1⟩]).2
      (by decide) ⟨"user", ["q"]⟩ (by rfl)⟩

/- ## Claim C5: fail-fast on a missing credential -/

/-- Claim C5 (confirmed): with an empty credential, `sendMessage` returns
the configuration error regardless of any transport behavior — no
transport is selected, no network oracle is consulted, and no history is
touched; with a non-empty credential it delegates to the adapter chosen
at construction time. -/
theorem c5_config_error :
    (∀ (key msg : String) (orResp : ORResponse) (s1 s2 : List GChunk) (t : String),
      key = "" →
      sendMessage (mkService key) msg orResp s1 s2 t = SendResult.configError missingKeyError)
    ∧ (∀ (key msg : String) (orResp : ORResponse) (s1 s2 : List GChunk) (t : String),
      key ≠ "" →
      sendMessage (mkService key) msg orResp s1 s2 t =
        if (mkService key).isOpenRouter then
          SendResult.openRouter (sendOpenRouterMessage [] msg orResp)
        else
          SendResult.google (googleSnapshots s1 s2 t) (sendGoogleMessage s1 s2 t).2) := by
  constructor
  · intro key msg orResp s1 s2 t hk
    subst hk
    rfl
  · intro key msg orResp s1 s2 t hk
    unfold sendMessage
    rw [show (mkService key).apiKey = key from rfl, if_neg hk]
    rfl

/-- Claim C5, witness: the fail-fast half at the empty credential with an
arbitrary adverse oracle. -/
theorem c5_config_error_witness :
    ("" : String) = "" ∧
    sendMessage (mkService "") "hello" ORResponse.netError [] [] "now"
      = SendResult.configError missingKeyError :=
  ⟨rfl, c5_config_error.1 "" "hello" ORResponse.netError [] [] "now" rfl⟩

/- ## Claim C6: deleting the last remaining session -/

/-- Claim C6 (confirmed): deleting the only remaining session leaves
exactly one session — a freshly created one holding the single seeded
model-authored welcome message — and it becomes the active session. -/
theorem c6_delete_last (st : AppState) (sid : String) (now : Nat) (s : ChatSession)
    (hs : st.sessions = [s]) (hid : s.id = sid) :
    handleDeleteSession st sid now =
      ⟨[createNewSession now], Nat.repr now,
        [⟨"welcome", Role.model, welcomeText, false, now⟩]⟩ := by
  unfold handleDeleteSession
  rw [hs]
  have hfilter : ([s].filter fun x => decide (x.id ≠ sid)) = [] := by
    simp [hid]
  rw [hfilter]
  rfl

/-- Claim C6, witness: deleting the sole session `"1"` at time 5. -/
theorem c6_delete_last_witness :
    (⟨[⟨"1", "t", [], 0⟩], "1", []⟩ : AppState).sessions = [⟨"1", "t", [], 0⟩] ∧
    handleDeleteSession ⟨[⟨"1", "t", [], 0⟩], "1", []⟩ "1" 5 =
      ⟨[createNewSession 5], Nat.repr 5,
        [⟨"welcome", Role.model, welcomeText, false, 5⟩]⟩ :=
  ⟨rfl, c6_delete_last ⟨[⟨"1", "t", [], 0⟩], "1", []⟩ "1" 5 ⟨"1", "t", [], 0⟩ rfl rfl⟩

/- ## Claim C9: unknown tool names -/

/-- Claim C9 (confirmed): a collected call whose name is neither
`calculator` nor `get_time` is answered — without failure and without an
error payload — by a response wrapping the untouched empty string, and
the adapter sends one response per collected call, preserving id and
name. -/
theorem c9_unknown_tool :
    (∀ (t : String) (c : FnCall), c.name ≠ "calculator" → c.name ≠ "get_time" →
      executeToolCall t c = ⟨c.id, c.name, ToolResultField.empty⟩)
    ∧ (∀ (s1 s2 : List GChunk) (t : String),
      (sendGoogleMessage s1 s2 t).2 = (collectCalls s1).map (executeToolCall t)) := by
  constructor
  · intro t c h1 h2
    unfold executeToolCall
    rw [if_neg h1, if_neg h2]
  · intro s1 s2 t
    unfold sendGoogleMessage
    cases hc : collectCalls s1 with
    | nil => simp [hc]
    | cons a l => simp [hc]

/-- Claim C9, witness: a call named `translate` is answered by the empty
result. -/
theorem c9_unknown_tool_witness :
    (("translate" : String) ≠ "calculator" ∧ ("translate" : String) ≠ "get_time") ∧
    executeToolCall "now" ⟨"7", "translate", "x"⟩ =
      ⟨"7", "translate", ToolResultField.empty⟩ :=
  ⟨⟨by decide, by decide⟩,
    c9_unknown_tool.1 "now" ⟨"7", "translate", "x"⟩ (by decide) (by decide)⟩

/- ## Claim C10: no rollback of the flat history on failure -/

/-- Claim C10 (confirmed): the HTTP transport pushes the user entry onto
the flat history before issuing the request, so on every failing send —
network error, non-success status, missing body — the history afterwards
is exactly the prior history plus that user entry, an error propagates,
and no snapshot and no assistant entry are produced. -/
theorem c10_no_rollback (hist : List ORMsg) (msg : String) (resp : ORResponse)
    (h : resp = ORResponse.netError ∨ (∃ b, resp = ORResponse.httpError b) ∨
      resp = ORResponse.noBody) :
    (sendOpenRouterMessage hist msg resp).history = hist ++ [⟨"user", msg⟩]
    ∧ (sendOpenRouterMessage hist msg resp).error ≠ none
    ∧ (sendOpenRouterMessage hist msg resp).snapshots = [] := by
  rcases h with rfl | ⟨b, rfl⟩ | rfl <;>
    exact ⟨rfl, by simp [sendOpenRouterMessage], rfl⟩

/-- Claim C10, witness: a network error on a one-entry history. -/
theorem c10_no_rollback_witness :
    (ORResponse.netError = ORResponse.netError ∨
      (∃ b, ORResponse.netError = ORResponse.httpError b) ∨
      ORResponse.netError = ORResponse.noBody) ∧
    (sendOpenRouterMessage [⟨"system", "s"⟩] "q" ORResponse.netError).history
      = [⟨"system", "s"⟩] ++ [⟨"user", "q"⟩] :=
  ⟨Or.inl rfl,
    (c10_no_rollback [⟨"system", "s"⟩] "q" ORResponse.netError (Or.inl rfl)).1⟩

/- ## Claim C7: session ordering -/

/-- Ordering invariant of the session collection: `updatedAt`
non-increasing from front to back. -/
def SortedDesc (l : List ChatSession) : Prop :=
  List.Pairwise (fun a b => b.updatedAt ≤ a.updatedAt) l

/-- Helper: membership after a stable insertion. -/
theorem mem_insertDesc (s x : ChatSession) (l : List ChatSession)
    (h : x ∈ insertDesc s l) : x = s ∨ x ∈ l := by
  induction l with
  | nil => exact Or.inl (List.mem_singleton.mp h)
  | cons t ts ih =>
    unfold insertDesc at h
    split at h
    · rcases List.mem_cons.mp h with rfl | hb
      · exact Or.inl rfl
      · exact Or.inr hb
    · rcases List.mem_cons.mp h with rfl | hb
      · exact Or.inr (List.mem_cons_self _ _)
      · rcases ih hb with rfl | hb'
        · exact Or.inl rfl
        · exact Or.inr (List.mem_cons_of_mem _ hb')

/-- Helper: stable insertion preserves the descending order. -/
theorem insertDesc_sorted (s : ChatSession) (l : List ChatSession)
    (h : SortedDesc l) : SortedDesc (insertDesc s l) := by
  induction l with
  | nil => exact List.pairwise_singleton _ _
  | cons t ts ih =>
    rw [SortedDesc, List.pairwise_cons] at h
    obtain ⟨hall, hts⟩ := h
    unfold insertDesc
    split
    next hle =>
      rw [SortedDesc, List.pairwise_cons]
      refine ⟨?_, ?_⟩
      · intro b hb
        rcases List.mem_cons.mp hb with rfl | hb'
        · exact hle
        · exact le_trans (hall b hb') hle
      · rw [List.pairwise_cons]
        exact ⟨hall, hts⟩
    next hgt =>
      rw [SortedDesc, List.pairwise_cons]
      refine ⟨?_, ih hts⟩
      intro b hb
      rcases mem_insertDesc s b ts hb with rfl | hb'
      · exact le_of_lt (not_le.mp hgt)
      · exact hall b hb'

/-- Helper: the stable sort produces a descending collection. -/
theorem sortDesc_sorted (l : List ChatSession) : SortedDesc (sortDesc l) := by
  induction l with
  | nil => exact List.Pairwise.nil
  | cons a l ih => exact insertDesc_sorted a (sortDesc l) ih

/-- Helper: stability of the insertion, phrased through per-key filters:
the subsequence of sessions with any fixed `updatedAt` is unchanged. -/
theorem insertDesc_filter (k : Nat) (s : ChatSession) (l : List ChatSession) :
    (insertDesc s l).filter (fun x => x.updatedAt == k)
      = ((s :: l).filter (fun x => x.updatedAt == k)) := by
  induction l with
  | nil => rfl
  | cons t ts ih =>
    unfold insertDesc
    split
    next => rfl
    next hgt =>
      have hst : s.updatedAt < t.updatedAt := not_le.mp hgt
      by_cases hk : t.updatedAt = k
      · have hs : ¬ s.updatedAt = k := by omega
        simp [List.filter_cons, hk, hs, ih]
      · by_cases hs : s.updatedAt = k
        · simp [List.filter_cons, hk, hs, ih]
        · simp [List.filter_cons, hk, hs, ih]

/-- Helper: stability of the whole sort through per-key filters. -/
theorem sortDesc_filter (k : Nat) (l : List ChatSession) :
    (sortDesc l).filter (fun x => x.updatedAt == k)
      = l.filter (fun x => x.updatedAt == k) := by
  induction l with
  | nil => rfl
  | cons a l ih =>
    show (insertDesc a (sortDesc l)).filter _ = _
    rw [insertDesc_filter]
    simp [List.filter_cons, ih]

/-- Claim C7 (confirmed): after every Update the collection is sorted by
`updatedAt` descending and, for every key, the subsequence of sessions
with that `updatedAt` is the same as in the (entry-replaced) collection
before sorting — the JavaScript sort is stable; after every Create —
given a collection already sorted and timestamps not exceeding the
creation clock — the collection (the fresh session prepended) is again
sorted descending, with the prior sessions' relative order untouched. -/
theorem c7_session_order :
    (∀ (sessions : List ChatSession) (cid : String) (msgs : List Message)
      (t : Option String) (now : Nat),
      SortedDesc (updateCurrentSession sessions cid msgs t now) ∧
      ∀ k, (updateCurrentSession sessions cid msgs t now).filter
          (fun x => x.updatedAt == k)
        = ((sessions.map fun session =>
            if session.id = cid then
              { session with messages := msgs, updatedAt := now,
                             title := appliedTitle t session.title }
            else session).filter (fun x => x.updatedAt == k)))
    ∧ (∀ (sessions : List ChatSession) (now : Nat),
      SortedDesc sessions → (∀ s ∈ sessions, s.updatedAt ≤ now) →
      SortedDesc (handleNewChat sessions now) ∧
      handleNewChat sessions now = createNewSession now :: sessions) := by
  constructor
  · intro sessions cid msgs t now
    exact ⟨sortDesc_sorted _, fun k => sortDesc_filter k _⟩
  · intro sessions now hsorted hle
    refine ⟨?_, rfl⟩
    rw [handleNewChat, SortedDesc, List.pairwise_cons]
    exact ⟨fun b hb => hle b hb, hsorted⟩

/-- Claim C7, witness: creating a chat at time 9 over a sorted singleton
collection from time 5. -/
theorem c7_session_order_witness :
    (SortedDesc [(⟨"1", "t", [], 5⟩ : ChatSession)] ∧
      ∀ s ∈ [(⟨"1", "t", [], 5⟩ : ChatSession)], s.updatedAt ≤ 9) ∧
    SortedDesc (handleNewChat [⟨"1", "t", [], 5⟩] 9) :=
  ⟨⟨List.pairwise_singleton _ _, by simp⟩,
    (c7_session_order.2 [⟨"1", "t", [], 5⟩] 9 (List.pairwise_singleton _ _) (by simp)).1⟩

/- ## Claim C8: title derivation -/

/-- Helper: the empty string is a right identity of append. -/
theorem str_append_empty (s : String) : s ++ "" = s := by
  cases s with
  | mk l => exact congrArg String.mk (List.append_nil l)

/-- Claim C8 (confirmed): user text longer than 30 characters derives a
title of exactly the first 30 characters followed by the ellipsis marker;
text of at most 30 characters derives the text unchanged; the derived
title is applied only while the session title is still the placeholder
`New Chat` — otherwise the existing title is kept.  (The applied-title
case assumes the non-empty user text guaranteed by the submit guard.) -/
theorem c8_title :
    (∀ u : String, 30 < u.data.length →
      deriveTitle u = String.mk (u.data.take 30) ++ "...")
    ∧ (∀ u : String, u.data.length ≤ 30 → deriveTitle u = u)
    ∧ (∀ (sess : ChatSession) (u : String), sess.title ≠ "New Chat" →
      appliedTitle (titleForSend sess u) sess.title = sess.title)
    ∧ (∀ (sess : ChatSession) (u : String), sess.title = "New Chat" → u ≠ "" →
      appliedTitle (titleForSend sess u) sess.title = deriveTitle u) := by
  refine ⟨?_, ?_, ?_, ?_⟩
  · intro u h
    unfold deriveTitle
    rw [if_pos h]
  · intro u h
    unfold deriveTitle
    rw [if_neg (by omega : ¬ 30 < u.data.length), List.take_of_length_le h, str_mk_data,
      str_append_empty]
  · intro sess u h
    unfold appliedTitle titleForSend
    rw [if_neg h]
  · intro sess u ht hu
    have hne : deriveTitle u ≠ "" := by
      intro h0
      have h1 : (deriveTitle u).data = [] := (str_eq_empty_iff _).mp h0
      unfold deriveTitle at h1
      rw [str_data_append] at h1
      have h3 : u.data.take 30 = [] := (List.append_eq_nil.mp h1).1
      have h4 : u.data ≠ [] := fun hh => hu ((str_eq_empty_iff u).mpr hh)
      cases hd : u.data with
      | nil => exact h4 hd
      | cons c l =>
        rw [hd] at h3
        simp [List.take_eq_nil_iff] at h3
    unfold appliedTitle titleForSend
    rw [if_pos ht]
    simp only
    rw [if_neg hne]

/-- Claim C8, witness: the placeholder-titled fresh session receives the
derived title of the short user text `hello`, which is the text itself. -/
theorem c8_title_witness :
    ((createNewSession 0).title = "New Chat" ∧ ("hello" : String) ≠ "") ∧
    appliedTitle (titleForSend (createNewSession 0) "hello") (createNewSession 0).title
      = deriveTitle "hello" :=
  ⟨⟨rfl, by decide⟩, c8_title.2.2.2 (createNewSession 0) "hello" rfl (by decide)⟩
